import Mathlib

/-!
Shallow embedding of the retention / inventory logic of the MAUI dev-cleaner
extension (`src/extension.js`).  Pure helper functions of the source are
translated to Lean functions; filesystem state is passed explicitly
(directory listings, sizes, manifest parse results, per-path deletion
outcomes); JavaScript exceptions become `Except` values.  JavaScript's
stable `Array.prototype.sort` is modelled by the stable `List.insertionSort`
applied to the total preorder induced by the source's comparator, and the
ICU numeric-aware collation of `String.localeCompare(..., { numeric: true })`
on ASCII labels is modelled by tokenizing into maximal digit runs (compared
by integer value) and single non-digit characters (compared by code point).
-/

namespace DevCleaner

/-- Three-way comparison on naturals, used for digit runs and code points. -/
def natCmp (m n : Nat) : Ordering :=
  if m < n then Ordering.lt else if n < m then Ordering.gt else Ordering.eq

/-- A collation token of `localeCompare(..., { numeric: true })`: either a
maximal run of digits (taken by its integer value) or a single
non-digit character. -/
abbrev VTok := Nat ⊕ Char

/-- Tokenizer for numeric-aware collation: accumulates maximal digit runs
into `Sum.inl`, emits other characters as `Sum.inr`.  `acc` carries the
value of the digit run currently being read, if any. -/
def tokenizeAux : Option Nat → List Char → List VTok
  | some n, [] => [Sum.inl n]
  | none, [] => []
  | acc, c :: cs =>
    if c.isDigit then
      tokenizeAux (some ((acc.getD 0) * 10 + (c.toNat - 48))) cs
    else
      match acc with
      | some n => Sum.inl n :: Sum.inr c :: tokenizeAux none cs
      | none => Sum.inr c :: tokenizeAux none cs

/-- Tokenize a character list for numeric-aware collation. -/
def tokenize (s : List Char) : List VTok := tokenizeAux none s

/-- Compare two collation tokens.  A digit run against a non-digit character
compares the way the digit block sits in the ASCII/ICU primary order:
like the code point of `'0'` against that character (so `'.'` sorts below a
number and letters sort above it). -/
def tokCmp : VTok → VTok → Ordering
  | Sum.inl m, Sum.inl n => natCmp m n
  | Sum.inr a, Sum.inr b => natCmp a.toNat b.toNat
  | Sum.inl _, Sum.inr c => natCmp 48 c.toNat
  | Sum.inr c, Sum.inl _ => natCmp c.toNat 48

/-- Lexicographic comparison of token lists; a strict prefix is smaller. -/
def tokListCmp : List VTok → List VTok → Ordering
  | [], [] => Ordering.eq
  | [], _ :: _ => Ordering.lt
  | _ :: _, [] => Ordering.gt
  | a :: as, b :: bs =>
    match tokCmp a b with
    | Ordering.eq => tokListCmp as bs
    | o => o

/-- Model of `a.localeCompare(b, undefined, { numeric: true })` restricted to
its sign, as an `Ordering`. -/
def localeCompareNumeric (a b : List Char) : Ordering :=
  tokListCmp (tokenize a) (tokenize b)

/-- Model of `label.split(' ')[0]`: the characters before the first space. -/
def versionKey (label : String) : List Char :=
  label.data.takeWhile (fun c => c != ' ')

/-- The sort key comparison of `keepLatestVersion`: compare the leading
space-delimited tokens of two labels with numeric-aware collation. -/
def labelCmp (a b : String) : Ordering :=
  localeCompareNumeric (versionKey a) (versionKey b)

/-- One scanned entry handed to `keepLatestVersion` (`{ label, path }` in the
source; extra fields such as `description` do not enter the comparison). -/
structure Entry where
  label : String
  path : String
deriving DecidableEq

/-- The sort order realised by the comparator
`(a, b) => versionB.localeCompare(versionA, undefined, { numeric: true })`:
`a` may come before `b` exactly when the comparator is `≤ 0`, i.e. when
`b`'s key does not exceed `a`'s — a descending order. -/
def entryOrder (a b : Entry) : Prop :=
  labelCmp b.label a.label ≠ Ordering.gt

instance : DecidableRel entryOrder := fun a b => by
  unfold entryOrder; infer_instance

/-- Model of `keepLatestVersion(versions)` (`src/extension.js` 52-64): groups
of size at most one yield nothing; otherwise sort a copy descending by the
numeric-aware label comparison and return everything after the first
(latest) element (`sortedVersions.slice(1)`). -/
def keepLatestVersion (versions : List Entry) : List Entry :=
  if versions.length ≤ 1 then []
  else (List.insertionSort entryOrder versions).drop 1

/-- A filesystem node as `getFolderSize` observes it through `statSync`:
a regular file with a byte size, a directory with a list of children, or
anything else (symlink, socket, ...), which contributes nothing. -/
inductive FSNode where
  | file : Nat → FSNode
  | dir : List FSNode → FSNode
  | other : FSNode

/-- The loop body of `getFolderSize` (`src/extension.js` 13-28) over a
directory listing: regular files add their size, directories recurse,
other children are skipped. -/
def getDirSize : List FSNode → Nat
  | [] => 0
  | FSNode.file sz :: rest => sz + getDirSize rest
  | FSNode.dir cs :: rest => getDirSize cs + getDirSize rest
  | FSNode.other :: rest => getDirSize rest

/-- Model of `getFolderSize(folderPath)`: `none` is a path for which
`fs.existsSync` is false (size 0); `some cs` is an existing directory with
listing `cs`. -/
def getFolderSize : Option (List FSNode) → Nat
  | none => 0
  | some cs => getDirSize cs

/-- The byte sizes of all regular files transitively contained under a
directory listing, in traversal order. -/
def filesUnder : List FSNode → List Nat
  | [] => []
  | FSNode.file sz :: rest => sz :: filesUnder rest
  | FSNode.dir cs :: rest => filesUnder cs ++ filesUnder rest
  | FSNode.other :: rest => filesUnder rest

/-- The unit table of `formatBytes` (`src/extension.js` 34). -/
def sizes : List String := ["Bytes", "KB", "MB", "GB", "TB"]

/-- Fuelled base-1024 integer logarithm.  `unitIndexAux fuel b` counts how
often `b` can be divided by 1024 before falling below 1024; `fuel ≥ b`
guarantees enough iterations. -/
def unitIndexAux : Nat → Nat → Nat
  | 0, _ => 0
  | fuel + 1, b => if b < 1024 then 0 else unitIndexAux fuel (b / 1024) + 1

/-- Model of `Math.floor(Math.log(bytes) / Math.log(1024))` for `bytes ≥ 1`
(`src/extension.js` 35), in IEEE double precision.  Below the unit-table
boundary the double computation agrees with the exact integer base-1024
logarithm everywhere except at the three naturals just under
`1024 ^ 5 = 2 ^ 50`: there `Math.log bytes` rounds to the very double of
`Math.log (1024 ^ 5)` — the true difference, about 8.9e-16, is an eighth
of an ulp at 34.657… — so the quotient is exactly 5.0 and the index is
already 5 (at `1024 ^ 5 - 4` the difference reaches half an ulp and the
doubles separate again).  From `1024 ^ 5` upward the rounded logarithm is
weakly monotone, so the double quotient stays at least 5, which is all the
theorems below use of that region; there the model keeps the exact
logarithm. -/
def unitIndex (bytes : Nat) : Nat :=
  if 1024 ^ 5 - 3 ≤ bytes ∧ bytes < 1024 ^ 5 then 5
  else unitIndexAux bytes bytes

/-- Decimal digit character for `d < 10`. -/
def digitChar (d : Nat) : Char := Char.ofNat (48 + d % 10)

/-- Decimal digits of `n` (most significant first); `fuel ≥ n` suffices. -/
def natDigitsAux : Nat → Nat → List Char
  | 0, _ => []
  | fuel + 1, n => if n = 0 then [] else natDigitsAux fuel (n / 10) ++ [digitChar (n % 10)]

/-- Decimal rendering of a natural number. -/
def natToDecimal (n : Nat) : String :=
  if n = 0 then "0" else String.mk (natDigitsAux n n)

/-- The scaled value `bytes / 1024 ^ i` in hundredths, rounded half-up:
the exact-arithmetic model of `(bytes / Math.pow(1024, i)).toFixed(2)`. -/
def scaledHundredths (bytes i : Nat) : Nat :=
  (200 * bytes + 1024 ^ i) / (2 * 1024 ^ i)

/-- Render a number of hundredths the way
`parseFloat(x.toFixed(2))` prints: up to two fractional digits with
trailing zeros (and a bare trailing dot) dropped. -/
def trimmedDecimal (h : Nat) : String :=
  if h % 100 = 0 then natToDecimal (h / 100)
  else if h % 10 = 0 then natToDecimal (h / 100) ++ "." ++ natToDecimal (h / 10 % 10)
  else natToDecimal (h / 100) ++ "." ++ natToDecimal (h / 10 % 10) ++ natToDecimal (h % 10)

/-- The numeric text of `formatBytes` for a given unit index. -/
def scaledText (bytes i : Nat) : String := trimmedDecimal (scaledHundredths bytes i)

/-- Model of `formatBytes(bytes)` (`src/extension.js` 31-37).  For an index
beyond the unit table JavaScript reads `sizes[i]` as `undefined` and
string-concatenates it, which `List.getD` with default `"undefined"`
reproduces. -/
def formatBytes (bytes : Nat) : String :=
  if bytes = 0 then "0 Bytes"
  else scaledText bytes (unitIndex bytes) ++ " " ++ (sizes.getD (unitIndex bytes) "undefined")

/-- Value of a list of decimal digit characters. -/
def digitsVal (ds : List Char) : Nat :=
  ds.foldl (fun acc c => acc * 10 + (c.toNat - 48)) 0

/-- Model of JavaScript `parseInt` on the strings this code feeds it: the
value of the leading digit run.  On a string with no leading digit
`parseInt` yields `NaN`, which the sort comparator coerces to `+0`; the
model folds that case to `0`.  Every `formatBytes` output for a positive
size starts with a digit, so the theorems below never rely on that case. -/
def jsParseInt (s : List Char) : Nat :=
  digitsVal (s.takeWhile Char.isDigit)

/-- The characters after the first occurrence of `sep` (everything, when
`sep` does not occur — the callers below always find one). -/
def afterSep (sep : List Char) : List Char → List Char
  | [] => []
  | c :: cs => if sep.isPrefixOf (c :: cs) then (c :: cs).drop sep.length else afterSep sep cs

/-- The characters before the first occurrence of `sep`. -/
def beforeSep (sep : List Char) : List Char → List Char
  | [] => []
  | c :: cs => if sep.isPrefixOf (c :: cs) then [] else c :: beforeSep sep cs

/-- Model of `s.split(sep)[1]`: the segment between the first and second
occurrence of the separator. -/
def splitField1 (sep : List Char) (s : List Char) : List Char :=
  beforeSep sep (afterSep sep s)

/-- A quick-pick item of the iOS Device Support cleaner
(`src/extension.js` 205-213): the size survives only inside the
`description` string `"Size: " ++ formatBytes size`. -/
structure DeviceItem where
  label : String
  description : String
  path : String
deriving DecidableEq

/-- The sort key of the `// Sort by size` comparators
(`src/extension.js` 216-220 and the analogous loops):
`parseInt(item.description.split(': ')[1])` — the leading digit run of the
human-formatted size, with its unit ignored. -/
def itemSizeKey (it : DeviceItem) : Nat :=
  jsParseInt (splitField1 [':', ' '] it.description.data)

/-- The order realised by the comparator `(a, b) => sizeB - sizeA` over the
parsed keys: `a` may precede `b` exactly when the comparator is `≤ 0`. -/
def devOrder (a b : DeviceItem) : Prop := itemSizeKey b ≤ itemSizeKey a

instance : DecidableRel devOrder := fun a b => by
  unfold devOrder; infer_instance

/-- Model of `items.sort(...)` in the device-support and Android-SDK
cleaners (`src/extension.js` 216-220, 312-316). -/
def sortBySizeDesc (items : List DeviceItem) : List DeviceItem :=
  List.insertionSort devOrder items

/-- Remove the first occurrence of `pat` from a character list; the model of
JavaScript `String.prototype.replace` with a plain-string pattern and empty
replacement. -/
def removeFirst (pat : List Char) : List Char → List Char
  | [] => []
  | c :: cs => if pat.isPrefixOf (c :: cs) then (c :: cs).drop pat.length else c :: removeFirst pat cs

/-- Model of `folder.replace('.asset', '')` (`src/extension.js` 398, 688):
removes the first occurrence of `".asset"`. -/
def stripAsset (name : String) : String :=
  String.mk (removeFirst ".asset".data name.data)

/-- Model of `item.endsWith('.asset')` (`src/extension.js` 370, 684). -/
def endsWithAsset (name : String) : Bool :=
  ".asset".data.isSuffixOf name.data

/-- One `<asset>` element of the simulator-runtime manifest, reduced to the
two attributes the source reads (`asset.$.state`, `asset.$.assetId`). -/
structure ManifestAsset where
  state : String
  assetId : String
deriving DecidableEq

/-- Model of the `usedRuntimes` set (`src/extension.js` 387-394, 674-681):
the `assetId`s of all manifest assets whose `state` is `"installed"`. -/
def installedSet (assets : List ManifestAsset) : List String :=
  (assets.filter (fun a => a.state = "installed")).map ManifestAsset.assetId

/-- Model of `usedRuntimes.has(folder.replace('.asset', ''))`. -/
def isUsedName (used : List String) (name : String) : Bool :=
  used.contains (stripAsset name)

/-- Modelled from the spec claim wording only (for comparison with the
source's `stripAsset`): the folder name with the `.asset` *suffix*
stripped. -/
def suffixStrippedName (name : String) : String :=
  if ".asset".data.isSuffixOf name.data then
    String.mk (name.data.take (name.data.length - 6))
  else name

/-- A quick-pick item of the iOS Simulator Runtime cleaner
(`src/extension.js` 397-406). -/
structure AssetItem where
  label : String
  description : String
  detail : String
  path : String
  isUsed : Bool
deriving DecidableEq

/-- Items built from the asset folders (name and byte size) and the
installed set, as in `src/extension.js` 397-406. -/
def mkAssetItems (used : List String) (folders : List (String × Nat)) : List AssetItem :=
  folders.map fun f =>
    let u := isUsedName used f.1
    { label := f.1
      description := if u then "Currently in use" else "Not in use"
      detail := "Size: " ++ formatBytes f.2
      path := f.1
      isUsed := u }

/-- The parsed size key of an asset item (`parseInt(detail.split(': ')[1])`,
`src/extension.js` 411-412). -/
def assetSizeKey (it : AssetItem) : Nat :=
  jsParseInt (splitField1 [':', ' '] it.detail.data)

/-- The order realised by the asset comparator (`src/extension.js` 409-414):
differing usage puts the not-in-use item first; equal usage falls back to
the parsed size keys, descending. -/
def assetOrder (a b : AssetItem) : Prop :=
  if a.isUsed = b.isUsed then assetSizeKey b ≤ assetSizeKey a
  else a.isUsed = false

instance : DecidableRel assetOrder := fun a b => by
  unfold assetOrder; infer_instance

/-- Outcome of the scan phase of the iOS Device Support command: an
informational message, an error message, or a sorted item list handed to
the quick pick. -/
inductive DeviceOutcome where
  | info : String → DeviceOutcome
  | errorMsg : String → DeviceOutcome
  | picker : List DeviceItem → DeviceOutcome
deriving DecidableEq

/-- Scan phase of `cleanIosDeviceSupport` (`src/extension.js` 183-228).
`listing` is `none` when the device-support path does not exist, otherwise
the subdirectory names paired with their computed byte sizes. -/
def cleanIosDeviceSupportScan (platform : String)
    (listing : Option (List (String × Nat))) : DeviceOutcome :=
  if platform ≠ "darwin" then DeviceOutcome.info "This command is only available on macOS"
  else
    match listing with
    | none => DeviceOutcome.info "No iOS Device Support folders found"
    | some folders =>
      if folders.isEmpty then DeviceOutcome.info "No iOS Device Support folders found"
      else
        DeviceOutcome.picker (sortBySizeDesc (folders.map fun f =>
          { label := f.1, description := "Size: " ++ formatBytes f.2, path := f.1 }))

/-- Outcome of the scan phase of the iOS Simulator Runtime command. -/
inductive SimOutcome where
  | info : String → SimOutcome
  | errorMsg : String → SimOutcome
  | picker : List AssetItem → SimOutcome
deriving DecidableEq

/-- Scan phase of `cleanIosSimulatorRuntime` (`src/extension.js` 348-423):
platform gate, missing-XML error, manifest parse (a parse exception lands
in the outer catch), `.asset` folder listing, empty-listing message, then
tagged and sorted items for the quick pick. -/
def cleanIosSimulatorRuntimeScan (platform : String) (xmlExists : Bool)
    (parse : Except String (List ManifestAsset))
    (folders : List (String × Nat)) : SimOutcome :=
  if platform ≠ "darwin" then SimOutcome.info "This command is only available on macOS"
  else if xmlExists = false then SimOutcome.errorMsg "iOS Simulator Runtime XML file not found"
  else
    match parse with
    | Except.error m => SimOutcome.errorMsg ("Error cleaning iOS Simulator Runtime: " ++ m)
    | Except.ok assets =>
      let afs := folders.filter (fun f => endsWithAsset f.1)
      if afs.isEmpty then SimOutcome.info "No iOS Simulator Runtime assets found"
      else SimOutcome.picker (List.insertionSort assetOrder (mkAssetItems (installedSet assets) afs))

/-- Outcome of the simulator-runtime portion of `cleanAllExceptLatest`
(`src/extension.js` 666-700): silently skipped when the runtime path or
the manifest XML is missing, aborted into the sweep's outer catch when the
manifest does not parse, otherwise the list of asset folder names it
removes. -/
inductive SweepSimOutcome where
  | skipped : SweepSimOutcome
  | aborted : String → SweepSimOutcome
  | removals : List String → SweepSimOutcome
deriving DecidableEq

/-- The removal set of the sweep's asset-bundle portion: every listed
`.asset` folder that is not in use (`src/extension.js` 683-691). -/
def sweepAssetRemovals (used : List String) (names : List String) : List String :=
  (names.filter endsWithAsset).filter (fun n => !(isUsedName used n))

/-- The simulator-runtime portion of `cleanAllExceptLatest`
(`src/extension.js` 666-700). -/
def sweepSimPortion (runtimeExists xmlExists : Bool)
    (parse : Except String (List ManifestAsset))
    (names : List String) : SweepSimOutcome :=
  if runtimeExists = false then SweepSimOutcome.skipped
  else if xmlExists = false then SweepSimOutcome.skipped
  else
    match parse with
    | Except.error m =>
      SweepSimOutcome.aborted ("Error cleaning all except latest versions: " ++ m)
    | Except.ok assets => SweepSimOutcome.removals (sweepAssetRemovals (installedSet assets) names)

/-- Aggregate result of a removal batch: removed count, freed bytes and the
per-item failures, in order. -/
structure RemovalResult where
  removedCount : Nat
  freedBytes : Nat
  failures : List (String × String)
deriving DecidableEq

/-- One iteration of the interactive removal loops
(`src/extension.js` 234-243, 330-339, 441-450, 553-573): measure the size,
attempt the deletion, and either accumulate the success or record the
failure and continue with the next path. -/
def removeBatchLoop (sz : String → Nat) (del : String → Except String Unit) :
    RemovalResult → List String → RemovalResult
  | acc, [] => acc
  | acc, p :: rest =>
    match del p with
    | Except.ok _ =>
      removeBatchLoop sz del
        { acc with removedCount := acc.removedCount + 1, freedBytes := acc.freedBytes + sz p } rest
    | Except.error m =>
      removeBatchLoop sz del { acc with failures := acc.failures ++ [(p, m)] } rest

/-- An interactive removal batch started from the zero accumulator. -/
def removeBatch (sz : String → Nat) (del : String → Except String Unit)
    (paths : List String) : RemovalResult :=
  removeBatchLoop sz del ⟨0, 0, []⟩ paths

/-- The removal loop of `cleanAllExceptLatest` (`src/extension.js` 599-605,
626-632, 655-661, 691-697): no per-item handler, so a failing deletion
propagates to the sweep's outer catch, discarding the accumulated counts. -/
def sweepRemoveLoop (sz : String → Nat) (del : String → Except String Unit) :
    Nat × Nat → List String → Except String (Nat × Nat)
  | acc, [] => Except.ok acc
  | acc, p :: rest =>
    match del p with
    | Except.error m => Except.error m
    | Except.ok _ => sweepRemoveLoop sz del (acc.1 + 1, acc.2 + sz p) rest

/-- A sweep removal batch started from the zero accumulator. -/
def sweepRemoveBatch (sz : String → Nat) (del : String → Except String Unit)
    (paths : List String) : Except String (Nat × Nat) :=
  sweepRemoveLoop sz del (0, 0) paths

theorem natCmp_self (n : Nat) : natCmp n n = Ordering.eq := by
  simp [natCmp]

theorem tokCmp_refl (t : VTok) : tokCmp t t = Ordering.eq := by
  cases t <;> simp [tokCmp, natCmp_self]

theorem tokListCmp_refl (ts : List VTok) : tokListCmp ts ts = Ordering.eq := by
  induction ts with
  | nil => rfl
  | cons a as ih => simp [tokListCmp, tokCmp_refl, ih]

theorem removeBatchLoop_count (sz : String → Nat) (del : String → Except String Unit) :
    ∀ (paths : List String) (acc : RemovalResult),
      (removeBatchLoop sz del acc paths).removedCount
          + (removeBatchLoop sz del acc paths).failures.length
        = acc.removedCount + acc.failures.length + paths.length := by
  intro paths
  induction paths with
  | nil => intro acc; simp [removeBatchLoop]
  | cons p rest ih =>
    intro acc
    unfold removeBatchLoop
    cases hd : del p with
    | ok u => rw [ih]; simp; omega
    | error m => rw [ih]; simp; omega

theorem unitIndexAux_bounds :
    ∀ (fuel b : Nat), 1 ≤ b → b ≤ fuel →
      1024 ^ (unitIndexAux fuel b) ≤ b ∧ b < 1024 ^ (unitIndexAux fuel b + 1) := by
  intro fuel
  induction fuel with
  | zero => intro b h1 h2; omega
  | succ fuel ih =>
    intro b h1 h2
    unfold unitIndexAux
    by_cases hb : b < 1024
    · rw [if_pos hb]
      exact ⟨by simpa using h1, by simpa using hb⟩
    · rw [if_neg hb]
      push_neg at hb
      have hb1 : 1 ≤ b / 1024 := (Nat.le_div_iff_mul_le (by norm_num)).mpr (by omega)
      have hb2 : b / 1024 ≤ fuel := by
        have hd : b / 1024 < b := Nat.div_lt_self (by omega) (by norm_num)
        omega
      obtain ⟨ihl, ihr⟩ := ih (b / 1024) hb1 hb2
      constructor
      · calc 1024 ^ (unitIndexAux fuel (b / 1024) + 1)
            = 1024 ^ unitIndexAux fuel (b / 1024) * 1024 := by rw [pow_succ]
          _ ≤ (b / 1024) * 1024 := Nat.mul_le_mul_right _ ihl
          _ ≤ b := Nat.div_mul_le_self b 1024
      · calc b < 1024 ^ (unitIndexAux fuel (b / 1024) + 1) * 1024 :=
              (Nat.div_lt_iff_lt_mul (by norm_num)).mp ihr
          _ = 1024 ^ (unitIndexAux fuel (b / 1024) + 1 + 1) := by ring

theorem unitIndex_eq_aux (b : Nat) (h : ¬ (1024 ^ 5 - 3 ≤ b ∧ b < 1024 ^ 5)) :
    unitIndex b = unitIndexAux b b := by
  unfold unitIndex
  rw [if_neg h]

/-- C1: for every group of entries, `keepLatestVersion` with 0 or 1 members
returns an empty removal set, and on the group with labels
`["1.0", "2.0", "1.5"]` it returns exactly (as a multiset) the removal set
`{"1.0", "1.5"}`, keeping `"2.0"`, the maximum label under the version
ordering. -/
theorem keepLatestVersion_c1 (vs : List Entry) (h : vs.length ≤ 1) :
    keepLatestVersion vs = [] ∧
    ((keepLatestVersion [⟨"1.0", "/p1"⟩, ⟨"2.0", "/p2"⟩, ⟨"1.5", "/p3"⟩]).map Entry.label).Perm
      ["1.0", "1.5"] ∧
    "2.0" ∉ (keepLatestVersion [⟨"1.0", "/p1"⟩, ⟨"2.0", "/p2"⟩, ⟨"1.5", "/p3"⟩]).map Entry.label := by
  refine ⟨?_, by decide, by decide⟩
  unfold keepLatestVersion
  rw [if_pos h]

/-- Witness for C1 at the empty group. -/
theorem keepLatestVersion_c1_w :
    keepLatestVersion [] = [] ∧
    ((keepLatestVersion [⟨"1.0", "/p1"⟩, ⟨"2.0", "/p2"⟩, ⟨"1.5", "/p3"⟩]).map Entry.label).Perm
      ["1.0", "1.5"] ∧
    "2.0" ∉ (keepLatestVersion [⟨"1.0", "/p1"⟩, ⟨"2.0", "/p2"⟩, ⟨"1.5", "/p3"⟩]).map Entry.label :=
  keepLatestVersion_c1 [] (by decide)

/-- C3: the sort key comparison of `keepLatestVersion` is reflexively equal
on every label, orders `"2.0"` below `"10.0"` (numeric, not lexical,
comparison of digit runs) and orders `"1.0"` below `"1.0.1"` (a strict
prefix is less). -/
theorem versionCompare_c3 (x : String) :
    labelCmp x x = Ordering.eq ∧
    labelCmp "2.0" "10.0" = Ordering.lt ∧
    labelCmp "1.0" "1.0.1" = Ordering.lt := by
  refine ⟨?_, by decide, by decide⟩
  unfold labelCmp localeCompareNumeric
  exact tokListCmp_refl _

/-- C4: `getFolderSize` returns 0 for a nonexistent path, and on every
existing directory tree it returns the sum of the byte sizes of all
regular files transitively contained in it (children that are neither
regular files nor directories contribute 0). -/
theorem getFolderSize_c4 (cs : List FSNode) :
    getFolderSize none = 0 ∧ getFolderSize (some cs) = (filesUnder cs).sum := by
  refine ⟨rfl, ?_⟩
  show getDirSize cs = (filesUnder cs).sum
  induction cs using getDirSize.induct with
  | case1 => simp [getDirSize, filesUnder]
  | case2 sz rest ih => simp [getDirSize, filesUnder, ih]
  | case3 cs rest ih1 ih2 => simp [getDirSize, filesUnder, ih1, ih2]
  | case4 rest ih => simp [getDirSize, filesUnder, ih]

/-- C9: `keepLatestVersion` (which sorts a spread copy, leaving its input
untouched — purity is inherent to this embedding) returns, for every input
of `n ≥ 2` entries, a sub-multiset of the input of length exactly
`n - 1`. -/
theorem keepLatestVersion_c9 (vs : List Entry) (h : 2 ≤ vs.length) :
    (keepLatestVersion vs).length = vs.length - 1 ∧
    List.Subperm (keepLatestVersion vs) vs := by
  have hlen : ¬ vs.length ≤ 1 := by omega
  have hperm : (List.insertionSort entryOrder vs).Perm vs := List.perm_insertionSort entryOrder vs
  constructor
  · unfold keepLatestVersion
    rw [if_neg hlen, List.length_drop, hperm.length_eq]
  · unfold keepLatestVersion
    rw [if_neg hlen]
    exact List.Subperm.trans (List.drop_sublist 1 _).subperm hperm.subperm

/-- Witness for C9 on a two-entry group. -/
theorem keepLatestVersion_c9_w :
    (keepLatestVersion [⟨"1.0", "/a"⟩, ⟨"2.0", "/b"⟩]).length = 1 ∧
    List.Subperm (keepLatestVersion [⟨"1.0", "/a"⟩, ⟨"2.0", "/b"⟩])
      [⟨"1.0", "/a"⟩, ⟨"2.0", "/b"⟩] :=
  keepLatestVersion_c9 [⟨"1.0", "/a"⟩, ⟨"2.0", "/b"⟩] (by decide)

/-- C2 counterexample: in the keep-latest-only sweep's removal loop a
failing deletion aborts the batch.  On paths `[p1, p2]` with `p1` failing
and `p2` deletable, the loop yields the error (handed to the sweep's outer
catch) and in particular not the claimed partial result with
`removedCount = 1` and `freedBytes = size p2 = 7`. -/
theorem sweepRemove_c2_cex :
    sweepRemoveBatch (fun p => if p = "p2" then 7 else 3)
        (fun p => if p = "p1" then Except.error "locked" else Except.ok ()) ["p1", "p2"]
      = Except.error "locked" ∧
    sweepRemoveBatch (fun p => if p = "p2" then 7 else 3)
        (fun p => if p = "p1" then Except.error "locked" else Except.ok ()) ["p1", "p2"]
      ≠ Except.ok (1, 7) := by
  have h1 : sweepRemoveBatch (fun p => if p = "p2" then 7 else 3)
      (fun p => if p = "p1" then Except.error "locked" else Except.ok ()) ["p1", "p2"]
      = Except.error "locked" := rfl
  refine ⟨h1, ?_⟩
  rw [h1]
  intro h
  exact Except.noConfusion h

/-- C2 (amended): in the interactive removal loops a failure deleting one
path never aborts the batch — every path is processed (removed count plus
failure count equals the number of paths) — and on `[p1, p2]` with `p1`
failing with message `m` and `p2` succeeding the result is
`removedCount = 1`, the single failure `(p1, m)` and
`freedBytes = size p2`.  (The keep-latest-only sweep's loop does not have
this property; see the counterexample.) -/
theorem removalLoops_c2 (sz : String → Nat) (del : String → Except String Unit)
    (paths : List String) (p1 p2 m : String)
    (h1 : del p1 = Except.error m) (h2 : del p2 = Except.ok ()) :
    (removeBatch sz del paths).removedCount + (removeBatch sz del paths).failures.length
      = paths.length ∧
    removeBatch sz del [p1, p2] = ⟨1, sz p2, [(p1, m)]⟩ := by
  constructor
  · unfold removeBatch
    rw [removeBatchLoop_count]
    simp
  · simp [removeBatch, removeBatchLoop, h1, h2]

/-- Witness for C2 on concrete size and deletion functions. -/
theorem removalLoops_c2_w :
    (removeBatch (fun p => if p = "b" then 5 else 3)
          (fun p => if p = "a" then Except.error "boom" else Except.ok ()) ["a", "b"]).removedCount
        + (removeBatch (fun p => if p = "b" then 5 else 3)
          (fun p => if p = "a" then Except.error "boom" else Except.ok ()) ["a", "b"]).failures.length
      = 2 ∧
    removeBatch (fun p => if p = "b" then 5 else 3)
        (fun p => if p = "a" then Except.error "boom" else Except.ok ()) ["a", "b"]
      = ⟨1, 5, [("a", "boom")]⟩ :=
  removalLoops_c2 (fun p => if p = "b" then 5 else 3)
    (fun p => if p = "a" then Except.error "boom" else Except.ok ())
    ["a", "b"] "a" "b" "boom" rfl rfl

/-- C5 (code bug): the device-support picker list is not ordered descending
by computed byte size.  Folders `A` of 900 bytes and `B` of 1024 bytes are
presented as `[A, B]` because the comparator parses the formatted labels
(`parseInt("900 Bytes") = 900`, `parseInt("1 KB") = 1`), although
900 < 1024 means descending byte order would put `B` first — contrary to
the code's own `// Sort by size` comment. -/
theorem sortBySize_c5_bug :
    cleanIosDeviceSupportScan "darwin" (some [("A", 900), ("B", 1024)])
      = DeviceOutcome.picker
          [⟨"A", "Size: 900 Bytes", "A"⟩, ⟨"B", "Size: 1 KB", "B"⟩] ∧
    itemSizeKey ⟨"A", "Size: 900 Bytes", "A"⟩ = 900 ∧
    itemSizeKey ⟨"B", "Size: 1 KB", "B"⟩ = 1 ∧
    (900 : Nat) < 1024 := by
  refine ⟨by decide, by decide, by decide, by decide⟩

/-- C6 counterexample: the code strips the first occurrence of `".asset"`,
not the suffix.  For folder `"A.assetB.asset"` with installed set
`{"A.assetB"}` the suffix-stripped name is in the installed set, yet the
code tags the entry as not in use. -/
theorem assetTagging_c6_cex :
    suffixStrippedName "A.assetB.asset" = "A.assetB" ∧
    "A.assetB" ∈ ["A.assetB"] ∧
    isUsedName ["A.assetB"] "A.assetB.asset" = false := by
  refine ⟨by decide, by decide, by decide⟩

/-- C6 (amended): an asset entry's `inUse` flag is true exactly when its
folder name with the first occurrence of `".asset"` removed (which equals
suffix-stripping whenever `".asset"` occurs only as the final suffix) is a
member of the installed set; with installed set `{"A"}` and folders
`["A.asset", "B.asset"]`, `"A.asset"` is tagged in use and `"B.asset"` not,
and the keep-latest-for-bundles removal set is exactly `["B.asset"]`. -/
theorem assetTagging_c6 (used : List String) (name : String) :
    (isUsedName used name = true ↔ stripAsset name ∈ used) ∧
    (mkAssetItems ["A"] [("A.asset", 5), ("B.asset", 7)]).map AssetItem.isUsed
      = [true, false] ∧
    sweepAssetRemovals ["A"] ["A.asset", "B.asset"] = ["B.asset"] := by
  refine ⟨?_, by decide, by decide⟩
  unfold isUsedName
  exact List.elem_iff

/-- C7 counterexample: in the keep-latest-only sweep, an absent manifest
XML silently skips the simulator-runtime portion instead of surfacing a
manifest error. -/
theorem manifestHandling_c7_cex :
    sweepSimPortion true false (Except.error "unreadable") ["A.asset", "B.asset"]
      = SweepSimOutcome.skipped := by
  rfl

/-- C7 (amended): the interactive simulator-runtime command surfaces an
error both when the manifest XML is absent and when it does not parse, and
the sweep's asset-bundle portion aborts with an error on an unparsable
manifest — but an absent manifest silently skips that portion of the
sweep. -/
theorem manifestHandling_c7 (platform : String) (hp : platform = "darwin")
    (parse : Except String (List ManifestAsset)) (folders : List (String × Nat))
    (names : List String) (m : String) :
    cleanIosSimulatorRuntimeScan platform false parse folders
      = SimOutcome.errorMsg "iOS Simulator Runtime XML file not found" ∧
    cleanIosSimulatorRuntimeScan platform true (Except.error m) folders
      = SimOutcome.errorMsg ("Error cleaning iOS Simulator Runtime: " ++ m) ∧
    sweepSimPortion true true (Except.error m) names
      = SweepSimOutcome.aborted ("Error cleaning all except latest versions: " ++ m) ∧
    sweepSimPortion true false (Except.error m) names = SweepSimOutcome.skipped := by
  subst hp
  refine ⟨?_, ?_, rfl, rfl⟩
  · unfold cleanIosSimulatorRuntimeScan
    rw [if_neg (by simp)]
    rfl
  · unfold cleanIosSimulatorRuntimeScan
    rw [if_neg (by simp)]
    rfl

/-- Witness for C7 on macOS with a concrete unparsable manifest. -/
theorem manifestHandling_c7_w :
    cleanIosSimulatorRuntimeScan "darwin" false (Except.ok []) []
      = SimOutcome.errorMsg "iOS Simulator Runtime XML file not found" ∧
    cleanIosSimulatorRuntimeScan "darwin" true (Except.error "bad xml") []
      = SimOutcome.errorMsg ("Error cleaning iOS Simulator Runtime: " ++ "bad xml") ∧
    sweepSimPortion true true (Except.error "bad xml") []
      = SweepSimOutcome.aborted ("Error cleaning all except latest versions: " ++ "bad xml") ∧
    sweepSimPortion true false (Except.error "bad xml") [] = SweepSimOutcome.skipped :=
  manifestHandling_c7 "darwin" rfl (Except.ok []) [] [] "bad xml"

/-- C8: on every platform other than macOS, the iOS Device Support and iOS
Simulator Runtime commands perform no scan or deletion and return the
informational message, not an error and not a picker list. -/
theorem platformGate_c8 (platform : String) (h : platform ≠ "darwin")
    (listing : Option (List (String × Nat))) (xmlExists : Bool)
    (parse : Except String (List ManifestAsset)) (folders : List (String × Nat)) :
    cleanIosDeviceSupportScan platform listing
      = DeviceOutcome.info "This command is only available on macOS" ∧
    cleanIosSimulatorRuntimeScan platform xmlExists parse folders
      = SimOutcome.info "This command is only available on macOS" := by
  constructor
  · unfold cleanIosDeviceSupportScan
    rw [if_pos h]
  · unfold cleanIosSimulatorRuntimeScan
    rw [if_pos h]

/-- Witness for C8 on Windows. -/
theorem platformGate_c8_w :
    cleanIosDeviceSupportScan "win32" (some [("A", 900)])
      = DeviceOutcome.info "This command is only available on macOS" ∧
    cleanIosSimulatorRuntimeScan "win32" true (Except.ok []) [("A.asset", 5)]
      = SimOutcome.info "This command is only available on macOS" :=
  platformGate_c8 "win32" (by decide) (some [("A", 900)]) true (Except.ok []) [("A.asset", 5)]

/-- C10 counterexample: at `b = 1024 ^ 5 - 1`, inside the claim's stated
range `b < 1024 ^ 5`, the double-precision logarithm quotient is already
exactly 5, so the unit index runs past the five-entry unit table and the
program prints `"1 undefined"`. -/
theorem formatBytes_c10_cex :
    1024 ^ 5 - 1 < 1024 ^ 5 ∧
    unitIndex (1024 ^ 5 - 1) = 5 ∧
    sizes.length = 5 ∧
    formatBytes (1024 ^ 5 - 1) = "1 undefined" := by
  refine ⟨by decide, by decide, rfl, by decide⟩

/-- C10 (amended): `formatBytes 0 = "0 Bytes"`; for every byte count `b`
with `1 ≤ b < 1024 ^ 5 - 3` the unit index stays inside the unit table
`[Bytes, KB, MB, GB, TB]` and the scaled value `b / 1024 ^ i` lies in
`[1, 1024)` (stated both as the natural-number bracketing and over `ℚ`),
the output being the scaled number followed by that unit; for
`b ≥ 1024 ^ 5 - 3` the unit index runs past the table — double-precision
rounding pushes the index to 5 already at the three naturals below
`1024 ^ 5`. -/
theorem formatBytes_c10 (b : Nat) (hb : 1 ≤ b) :
    formatBytes 0 = "0 Bytes" ∧
    (b < 1024 ^ 5 - 3 →
      unitIndex b < sizes.length ∧
      1024 ^ unitIndex b ≤ b ∧ b < 1024 ^ (unitIndex b + 1) ∧
      (1 : ℚ) ≤ (b : ℚ) / 1024 ^ unitIndex b ∧ (b : ℚ) / 1024 ^ unitIndex b < 1024 ∧
      sizes.getD (unitIndex b) "undefined" ∈ sizes ∧
      formatBytes b
        = scaledText b (unitIndex b) ++ " " ++ sizes.getD (unitIndex b) "undefined") ∧
    (1024 ^ 5 - 3 ≤ b → sizes.length ≤ unitIndex b) := by
  refine ⟨rfl, ?_, ?_⟩
  · intro h5
    have hcond : ¬ (1024 ^ 5 - 3 ≤ b ∧ b < 1024 ^ 5) := by
      rintro ⟨hc, -⟩
      exact absurd (Nat.lt_of_lt_of_le h5 hc) (Nat.lt_irrefl b)
    have heq : unitIndex b = unitIndexAux b b := unitIndex_eq_aux b hcond
    have h5' : b < 1024 ^ 5 := Nat.lt_of_lt_of_le h5 (Nat.sub_le _ _)
    obtain ⟨hl, hr⟩ := unitIndexAux_bounds b b hb (Nat.le_refl b)
    rw [heq]
    have hidx : unitIndexAux b b < 5 := by
      by_contra hge
      push_neg at hge
      have : (1024 : Nat) ^ 5 ≤ 1024 ^ unitIndexAux b b :=
        Nat.pow_le_pow_right (by norm_num) hge
      omega
    have hpow : (0 : ℚ) < 1024 ^ unitIndexAux b b := by positivity
    refine ⟨by simpa [sizes] using hidx, hl, hr, ?_, ?_, ?_, ?_⟩
    · rw [le_div_iff₀ hpow]
      rw [one_mul]
      exact_mod_cast hl
    · rw [div_lt_iff₀ hpow]
      calc (b : ℚ) < 1024 ^ (unitIndexAux b b + 1) := by exact_mod_cast hr
        _ = 1024 * 1024 ^ unitIndexAux b b := by ring
    · have hall : ∀ i, i < 5 → sizes.getD i "undefined" ∈ sizes := by decide
      exact hall (unitIndexAux b b) hidx
    · unfold formatBytes
      rw [if_neg (by omega), heq]
  · intro h5
    by_cases hlt : b < 1024 ^ 5
    · have hval : unitIndex b = 5 := by
        unfold unitIndex
        rw [if_pos ⟨h5, hlt⟩]
      rw [hval]
      decide
    · push_neg at hlt
      have hcond : ¬ (1024 ^ 5 - 3 ≤ b ∧ b < 1024 ^ 5) := by
        rintro ⟨-, hc⟩
        exact absurd hc (Nat.not_lt.mpr hlt)
      have heq : unitIndex b = unitIndexAux b b := unitIndex_eq_aux b hcond
      obtain ⟨hl, hr⟩ := unitIndexAux_bounds b b hb (Nat.le_refl b)
      have hidx : 5 ≤ unitIndexAux b b := by
        by_contra hlt2
        push_neg at hlt2
        have hs : unitIndexAux b b + 1 ≤ 5 := by omega
        have : (1024 : Nat) ^ (unitIndexAux b b + 1) ≤ 1024 ^ 5 :=
          Nat.pow_le_pow_right (by norm_num) hs
        omega
      rw [heq]
      simpa [sizes] using hidx

/-- Witness for C10 at 2048 bytes. -/
theorem formatBytes_c10_w :
    formatBytes 0 = "0 Bytes" ∧
    (2048 < 1024 ^ 5 - 3 →
      unitIndex 2048 < sizes.length ∧
      1024 ^ unitIndex 2048 ≤ 2048 ∧ 2048 < 1024 ^ (unitIndex 2048 + 1) ∧
      (1 : ℚ) ≤ (2048 : ℚ) / 1024 ^ unitIndex 2048 ∧
      (2048 : ℚ) / 1024 ^ unitIndex 2048 < 1024 ∧
      sizes.getD (unitIndex 2048) "undefined" ∈ sizes ∧
      formatBytes 2048
        = scaledText 2048 (unitIndex 2048) ++ " " ++ sizes.getD (unitIndex 2048) "undefined") ∧
    (1024 ^ 5 - 3 ≤ 2048 → sizes.length ≤ unitIndex 2048) :=
  formatBytes_c10 2048 (by decide)

end DevCleaner
